import Mathlib

/-!
Verification of the SJF scheduler in sjf.py.

The core under study is SJFScheduler.calculate_metrics, which stably sorts the
process list ascending by burst_time (Python list.sort is stable; we embed it
as Mathlib insertionSort, which is stable for the total preorder on bursts)
and then walks the sorted list assigning waiting, turnaround and completion
times from a running clock, and run_threaded_simulation, which spawns one
worker per process, each appending its process to a shared completed list
under a lock; we embed the latter as a nondeterministic step relation where
each pending worker atomically appends once.
-/

namespace SJF

/-- Embeds the Process dataclass of sjf.py: pid, burst_time and the derived
fields waiting_time, turnaround_time, arrival_time, completion_time, all
Python ints (arbitrary precision, hence Int), derived fields defaulting to 0. -/
structure Process where
  pid : Int
  burst_time : Int
  waiting_time : Int := 0
  turnaround_time : Int := 0
  arrival_time : Int := 0
  completion_time : Int := 0
deriving DecidableEq

/-- The sort key relation used at sjf.py line 129:
sort(key = lambda p: p.burst_time), i.e. compare processes by burst_time. -/
def burstLE (p q : Process) : Prop := p.burst_time ≤ q.burst_time

instance : DecidableRel burstLE :=
  fun p q => inferInstanceAs (Decidable (p.burst_time ≤ q.burst_time))

instance : IsTotal Process burstLE :=
  ⟨fun p q => Int.le_total p.burst_time q.burst_time⟩

instance : IsTrans Process burstLE :=
  ⟨fun _ _ _ h1 h2 => le_trans h1 h2⟩

/-- The loop body of calculate_metrics (sjf.py lines 133-141): sequentially
assign waiting_time = current_time, turnaround_time = waiting_time +
burst_time, completion_time = current_time + burst_time. -/
def calcJob (current_time : Int) (p : Process) : Process :=
  let p1 := { p with waiting_time := current_time }
  let p2 := { p1 with turnaround_time := p1.waiting_time + p1.burst_time }
  { p2 with completion_time := current_time + p2.burst_time }

/-- The for-loop of calculate_metrics (sjf.py lines 131-144): thread the
running clock current_time through the list, updating it to each process's
completion_time (line 144). -/
def assignMetrics : Int → List Process → List Process
  | _, [] => []
  | current_time, p :: rest =>
    let p3 := calcJob current_time p
    p3 :: assignMetrics p3.completion_time rest

/-- SJFScheduler.calculate_metrics (sjf.py lines 114-146): stable-sort by
burst_time, then assign metrics with the clock starting at 0. The Python code
performs no validation: empty lists and non-positive bursts flow through the
same path. -/
def calculate_metrics (processes : List Process) : List Process :=
  assignMetrics 0 (List.insertionSort burstLE processes)

/-- Transcribed from the spec's algorithm step 3: iterating the list with
currentTime assigns each job waitingTime = currentTime, turnaroundTime =
waitingTime + burst, completionTime = waitingTime + burst, then currentTime =
completionTime. Used to compare calculate_metrics against the spec's words. -/
def specMetricsOk : Int → List Process → Prop
  | _, [] => True
  | currentTime, p :: rest =>
    p.waiting_time = currentTime ∧
    p.turnaround_time = p.waiting_time + p.burst_time ∧
    p.completion_time = p.waiting_time + p.burst_time ∧
    specMetricsOk p.completion_time rest

/-- State of run_threaded_simulation (sjf.py lines 173-203): the workers whose
append has not yet executed, and the shared completed_processes list
(sjf.py line 112). -/
structure SimState where
  pending : List Process
  completed_processes : List Process
deriving DecidableEq

/-- One atomic event of the simulation: some pending worker finishes its sleep
and, holding the lock (sjf.py lines 168-169), appends its process to
completed_processes. Sleep timing is abstracted as the nondeterministic choice
of which pending worker fires. -/
inductive SimStep : SimState → SimState → Prop
  | finish (p : Process) (l r done : List Process) :
      SimStep ⟨l ++ p :: r, done⟩ ⟨l ++ r, done ++ [p]⟩

/-- Reachability from the initial state of run_threaded_simulation on job list
ps: all workers launched (all pending), completed_processes empty. -/
def SimReach (ps : List Process) (s : SimState) : Prop :=
  Relation.ReflTransGen SimStep { pending := ps, completed_processes := [] } s

/-- The spec's end-to-end example: bursts 6, 8, 7, 3 with pids 1-4. -/
def jobs4 : List Process :=
  [{ pid := 1, burst_time := 6 }, { pid := 2, burst_time := 8 },
   { pid := 3, burst_time := 7 }, { pid := 4, burst_time := 3 }]

/-- The spec's single-job example: one process with burst 5. -/
def job5 : Process := { pid := 1, burst_time := 5 }

/-- A process with a non-positive burst, passed directly to the calculator. -/
def procNeg : Process := { pid := 1, burst_time := -1 }

/-- Two concrete processes for exercising the simulation relation. -/
def procA : Process := { pid := 1, burst_time := 2 }

/-- Second concrete process for the simulation relation. -/
def procB : Process := { pid := 2, burst_time := 1 }

/-- The metric-assignment loop preserves the length of the list. -/
theorem assignMetrics_length (t : Int) (l : List Process) :
    (assignMetrics t l).length = l.length := by
  induction l generalizing t with
  | nil => rfl
  | cons p l ih => simp [assignMetrics, ih]

/-- The metric-assignment loop never touches burst_time. -/
theorem assignMetrics_map_burst (t : Int) (l : List Process) :
    (assignMetrics t l).map Process.burst_time = l.map Process.burst_time := by
  induction l generalizing t with
  | nil => rfl
  | cons p l ih => simp [assignMetrics, calcJob, ih]

/-- The metric-assignment loop never touches pid, burst_time or arrival_time. -/
theorem assignMetrics_map_frame (t : Int) (l : List Process) :
    (assignMetrics t l).map (fun p => (p.pid, p.burst_time, p.arrival_time))
      = l.map (fun p => (p.pid, p.burst_time, p.arrival_time)) := by
  induction l generalizing t with
  | nil => rfl
  | cons p l ih => simp [assignMetrics, calcJob, ih]

/-- Every process produced by the loop satisfies turnaround = waiting + burst
and completion = waiting + burst. -/
theorem assignMetrics_mem_invariant (t : Int) (l : List Process) :
    ∀ p ∈ assignMetrics t l,
      p.turnaround_time = p.waiting_time + p.burst_time ∧
      p.completion_time = p.waiting_time + p.burst_time := by
  induction l generalizing t with
  | nil => intro p hp; simp [assignMetrics] at hp
  | cons q l ih =>
    intro p hp
    simp only [assignMetrics, List.mem_cons] at hp
    rcases hp with rfl | hp
    · exact ⟨rfl, rfl⟩
    · exact ih _ p hp

/-- The loop's output satisfies the spec's clock recurrence. -/
theorem assignMetrics_specOk (t : Int) (l : List Process) :
    specMetricsOk t (assignMetrics t l) := by
  induction l generalizing t with
  | nil => trivial
  | cons p l ih => exact ⟨rfl, rfl, rfl, ih _⟩

/-- Re-running the loop at the same start time rewrites identical values. -/
theorem assignMetrics_idem (t : Int) (l : List Process) :
    assignMetrics t (assignMetrics t l) = assignMetrics t l := by
  induction l generalizing t with
  | nil => rfl
  | cons p l ih =>
    rcases p with ⟨pid, b, w, tt, ar, c⟩
    simp [assignMetrics, calcJob, ih]

/-- Inserting a process whose burst is b puts it in front of the other
processes with burst b: later equal-burst elements stay behind it. -/
theorem filter_orderedInsert_eq (b : Int) (a : Process) (l : List Process)
    (h : a.burst_time = b) :
    (List.orderedInsert burstLE a l).filter (fun p => decide (p.burst_time = b))
      = a :: l.filter (fun p => decide (p.burst_time = b)) := by
  induction l with
  | nil => simp [List.orderedInsert, h]
  | cons x l ih =>
    by_cases hx : burstLE a x
    · simp [List.orderedInsert, hx, h]
    · have hxb : ¬ x.burst_time = b := by
        intro hb
        exact hx (by simp [burstLE, h, hb])
      simp [List.orderedInsert, hx, hxb, ih]

/-- Inserting a process whose burst is not b leaves the burst-b subsequence
unchanged. -/
theorem filter_orderedInsert_ne (b : Int) (a : Process) (l : List Process)
    (h : ¬ a.burst_time = b) :
    (List.orderedInsert burstLE a l).filter (fun p => decide (p.burst_time = b))
      = l.filter (fun p => decide (p.burst_time = b)) := by
  induction l with
  | nil => simp [List.orderedInsert, h]
  | cons x l ih =>
    by_cases hx : burstLE a x
    · simp [List.orderedInsert, hx, h]
    · simp [List.orderedInsert, hx, List.filter_cons, ih]

/-- Stability of the sort: the subsequence of processes with any fixed burst
value b is exactly the input's subsequence, in input order. -/
theorem filter_insertionSort_burst (b : Int) (l : List Process) :
    (List.insertionSort burstLE l).filter (fun p => decide (p.burst_time = b))
      = l.filter (fun p => decide (p.burst_time = b)) := by
  induction l with
  | nil => rfl
  | cons x l ih =>
    by_cases hx : x.burst_time = b
    · rw [List.insertionSort, filter_orderedInsert_eq b x _ hx, ih]
      simp [hx]
    · rw [List.insertionSort, filter_orderedInsert_ne b x _ hx, ih]
      simp [hx]

/-- The metric-assignment loop commutes with filtering on burst and reading
pids, since it changes neither field. -/
theorem assignMetrics_filter_map_pid (b : Int) (t : Int) (l : List Process) :
    ((assignMetrics t l).filter (fun p => decide (p.burst_time = b))).map Process.pid
      = (l.filter (fun p => decide (p.burst_time = b))).map Process.pid := by
  induction l generalizing t with
  | nil => rfl
  | cons p l ih =>
    by_cases hb : p.burst_time = b
    · simp [assignMetrics, calcJob, hb, ih]
    · simp [assignMetrics, calcJob, hb, ih]

/-- Pairwise burst order of a process list is the pairwise order of its
burst projections. -/
theorem pairwise_burstLE_iff (l : List Process) :
    List.Pairwise burstLE l ↔
      List.Pairwise (fun a b : Int => a ≤ b) (l.map Process.burst_time) := by
  rw [List.pairwise_map]
  rfl

/-- The output of calculate_metrics is sorted ascending by burst_time. -/
theorem calculate_metrics_sortedBurst (ps : List Process) :
    List.Pairwise burstLE (calculate_metrics ps) := by
  unfold calculate_metrics
  rw [pairwise_burstLE_iff, assignMetrics_map_burst, ← pairwise_burstLE_iff]
  exact List.sorted_insertionSort burstLE ps

/-- The sum identity holds on any list satisfying the pointwise turnaround
invariant. -/
theorem sum_turnaround_of_invariant (l : List Process)
    (h : ∀ p ∈ l, p.turnaround_time = p.waiting_time + p.burst_time) :
    (l.map Process.waiting_time).sum + (l.map Process.burst_time).sum
      = (l.map Process.turnaround_time).sum := by
  induction l with
  | nil => simp
  | cons p l ih =>
    have hp := h p (by simp)
    have ih2 := ih (fun q hq => h q (by simp [hq]))
    simp only [List.map_cons, List.sum_cons]
    omega

/-- Every burst value occurring in the input also occurs in the output of
calculate_metrics. -/
theorem calculate_metrics_burst_mem (ps : List Process) (b : Int)
    (h : b ∈ ps.map Process.burst_time) :
    b ∈ (calculate_metrics ps).map Process.burst_time := by
  unfold calculate_metrics
  rw [assignMetrics_map_burst]
  exact ((List.perm_insertionSort burstLE ps).map Process.burst_time).mem_iff.mpr h

/-- Invariant of the simulation: at every reachable state, the pending
workers together with the completed list form a permutation of the input. -/
theorem simReach_perm_aux (ps : List Process) (s : SimState) (h : SimReach ps s) :
    (s.pending ++ s.completed_processes).Perm ps := by
  induction h with
  | refl => simp
  | tail hab hbc ih =>
    cases hbc with
    | finish p l r done =>
      refine List.Perm.trans ?_ ih
      have h1 : ((l ++ r) ++ (done ++ [p])).Perm (p :: ((l ++ r) ++ done)) := by
        rw [← List.append_assoc]
        exact List.perm_append_singleton p ((l ++ r) ++ done)
      have h2 : ((l ++ p :: r) ++ done).Perm (p :: ((l ++ r) ++ done)) :=
        List.perm_middle.append_right done
      exact h1.trans h2.symm

/-- On a non-empty sorted list, calculate_metrics starts with a head whose
waiting time is zero and whose burst is minimal. -/
theorem calculate_metrics_head_aux (ps : List Process) (h : ps ≠ []) :
    ∃ p l, calculate_metrics ps = p :: l ∧ p.waiting_time = 0 ∧
      ∀ q ∈ l, p.burst_time ≤ q.burst_time := by
  have hlen : (List.insertionSort burstLE ps).length = ps.length :=
    List.length_insertionSort burstLE ps
  cases hsort : List.insertionSort burstLE ps with
  | nil =>
    exfalso
    apply h
    rw [hsort] at hlen
    exact List.length_eq_zero.mp hlen.symm
  | cons x xs =>
    have hsorted : List.Pairwise burstLE (x :: xs) := by
      rw [← hsort]
      exact List.sorted_insertionSort burstLE ps
    refine ⟨calcJob 0 x, assignMetrics (calcJob 0 x).completion_time xs, ?_, rfl, ?_⟩
    · unfold calculate_metrics
      rw [hsort]
      rfl
    · intro q hq
      have hmem : q.burst_time ∈ xs.map Process.burst_time := by
        rw [← assignMetrics_map_burst (calcJob 0 x).completion_time xs]
        exact List.mem_map_of_mem Process.burst_time hq
      rcases List.mem_map.mp hmem with ⟨y, hy, hyb⟩
      have hxy := (List.pairwise_cons.mp hsorted).1 y hy
      simpa [calcJob, ← hyb] using hxy

/-- Claim C1: on a non-empty list of jobs with positive bursts and zeroed
derived fields, calculate_metrics returns the list stably sorted ascending by
burst, and iterating the sorted order with currentTime starting at 0 assigns
waitingTime = currentTime, turnaroundTime = completionTime = waitingTime +
burst, then currentTime = completionTime; the spec's example bursts 6, 8, 7, 3
(pids 1-4) yield pid order 4, 1, 3, 2, waiting times 0, 3, 9, 16 and
turnaround times 3, 9, 16, 24. -/
theorem calculate_metrics_algorithm :
    (∀ ps : List Process, ps ≠ [] → (∀ p ∈ ps, 0 < p.burst_time) →
      (∀ p ∈ ps, p.waiting_time = 0 ∧ p.turnaround_time = 0 ∧ p.completion_time = 0) →
      List.Sorted burstLE (calculate_metrics ps) ∧
      (∀ b : Int,
        ((calculate_metrics ps).filter (fun p => decide (p.burst_time = b))).map Process.pid
          = (ps.filter (fun p => decide (p.burst_time = b))).map Process.pid) ∧
      specMetricsOk 0 (calculate_metrics ps)) ∧
    (calculate_metrics jobs4).map (fun p => (p.pid, p.waiting_time, p.turnaround_time))
      = [(4, 0, 3), (1, 3, 9), (3, 9, 16), (2, 16, 24)] := by
  constructor
  · intro ps _hne _hpos _hzero
    refine ⟨calculate_metrics_sortedBurst ps, fun b => ?_, ?_⟩
    · unfold calculate_metrics
      rw [assignMetrics_filter_map_pid, filter_insertionSort_burst]
    · exact assignMetrics_specOk 0 _
  · decide

/-- Claim C1 witness: the general statement applied to the spec's four-job
example, with the stability equation instantiated at burst value 3. -/
theorem calculate_metrics_algorithm_witness :
    List.Sorted burstLE (calculate_metrics jobs4) ∧
    (((calculate_metrics jobs4).filter (fun p => decide (p.burst_time = 3))).map Process.pid
      = (jobs4.filter (fun p => decide (p.burst_time = 3))).map Process.pid) ∧
    specMetricsOk 0 (calculate_metrics jobs4) :=
  ⟨(calculate_metrics_algorithm.1 jobs4 (by decide) (by decide) (by decide)).1,
   (calculate_metrics_algorithm.1 jobs4 (by decide) (by decide) (by decide)).2.1 3,
   (calculate_metrics_algorithm.1 jobs4 (by decide) (by decide) (by decide)).2.2⟩

/-- Claim C2 counterexample: a job with burst -1 passed directly to
calculate_metrics is not rejected with InvalidInput; the code computes and
returns metrics for it, including a negative turnaround and completion time,
contradicting the claim that computation fails for non-positive bursts. -/
theorem calculate_metrics_invalid_counterexample :
    calculate_metrics [procNeg] =
      [{ pid := 1, burst_time := -1, waiting_time := 0, turnaround_time := -1,
         arrival_time := 0, completion_time := -1 }] := by
  decide

/-- Claim C2 amended: calculate_metrics performs no burst validation: a list
containing a job with burst at most 0 is processed like any other, every job
receives computed metrics (the output has the input's length), and the
non-positive-burst job itself gets turnaround = waiting + burst, which can be
negative; no InvalidInput error exists in the code. -/
theorem calculate_metrics_no_validation (ps : List Process)
    (h : ∃ p ∈ ps, p.burst_time ≤ 0) :
    (calculate_metrics ps).length = ps.length ∧
      ∃ q ∈ calculate_metrics ps, q.burst_time ≤ 0 ∧
        q.turnaround_time = q.waiting_time + q.burst_time := by
  constructor
  · unfold calculate_metrics
    rw [assignMetrics_length, List.length_insertionSort]
  · rcases h with ⟨p, hp, hple⟩
    have hb : p.burst_time ∈ (calculate_metrics ps).map Process.burst_time :=
      calculate_metrics_burst_mem ps p.burst_time (List.mem_map_of_mem _ hp)
    rcases List.mem_map.mp hb with ⟨q, hq, hqb⟩
    refine ⟨q, hq, ?_, (assignMetrics_mem_invariant 0 _ q hq).1⟩
    rw [hqb]
    exact hple

/-- Claim C2 witness: the amended statement at the single job with burst -1. -/
theorem calculate_metrics_no_validation_witness :
    (calculate_metrics [procNeg]).length = [procNeg].length ∧
      ∃ q ∈ calculate_metrics [procNeg], q.burst_time ≤ 0 ∧
        q.turnaround_time = q.waiting_time + q.burst_time :=
  calculate_metrics_no_validation [procNeg] ⟨procNeg, by decide, by decide⟩

/-- Claim C3 counterexample: on the empty list calculate_metrics returns the
empty list as an ordinary value; no EmptyJobSet error is signaled anywhere in
the code, contradicting the claim that a usage error is raised. -/
theorem calculate_metrics_empty_counterexample :
    calculate_metrics [] = [] := rfl

/-- Claim C3 amended: invoked on an empty job list, calculate_metrics returns
the empty list: no computation is attempted (no metric is assigned, the output
has length zero) and no crash occurs, but no error is signaled either. -/
theorem calculate_metrics_empty (ps : List Process) (h : ps = []) :
    calculate_metrics ps = [] ∧ (calculate_metrics ps).length = 0 := by
  subst h
  exact ⟨rfl, rfl⟩

/-- Claim C3 witness: the amended statement at the empty list. -/
theorem calculate_metrics_empty_witness :
    calculate_metrics ([] : List Process) = [] ∧
      (calculate_metrics ([] : List Process)).length = 0 :=
  calculate_metrics_empty [] rfl

/-- Claim C4: every job returned by calculate_metrics on a non-empty input
with positive bursts satisfies turnaroundTime = waitingTime + burst and
completionTime = waitingTime + burst, hence turnaroundTime = completionTime. -/
theorem calculate_metrics_invariants (ps : List Process) (_h1 : ps ≠ [])
    (_h2 : ∀ p ∈ ps, 0 < p.burst_time) :
    ∀ p ∈ calculate_metrics ps,
      p.turnaround_time = p.waiting_time + p.burst_time ∧
      p.completion_time = p.waiting_time + p.burst_time ∧
      p.turnaround_time = p.completion_time := by
  intro p hp
  have h := assignMetrics_mem_invariant 0 (List.insertionSort burstLE ps) p hp
  exact ⟨h.1, h.2, h.1.trans h.2.symm⟩

/-- Claim C4 witness: the invariants at the first output job of the four-job
example, namely pid 4 with burst 3, waiting 0, turnaround 3, completion 3. -/
theorem calculate_metrics_invariants_witness :
    ({ pid := 4, burst_time := 3, waiting_time := 0, turnaround_time := 3,
       arrival_time := 0, completion_time := 3 } : Process).turnaround_time =
        ({ pid := 4, burst_time := 3, waiting_time := 0, turnaround_time := 3,
           arrival_time := 0, completion_time := 3 } : Process).waiting_time +
        ({ pid := 4, burst_time := 3, waiting_time := 0, turnaround_time := 3,
           arrival_time := 0, completion_time := 3 } : Process).burst_time ∧
    ({ pid := 4, burst_time := 3, waiting_time := 0, turnaround_time := 3,
       arrival_time := 0, completion_time := 3 } : Process).completion_time =
        ({ pid := 4, burst_time := 3, waiting_time := 0, turnaround_time := 3,
           arrival_time := 0, completion_time := 3 } : Process).waiting_time +
        ({ pid := 4, burst_time := 3, waiting_time := 0, turnaround_time := 3,
           arrival_time := 0, completion_time := 3 } : Process).burst_time ∧
    ({ pid := 4, burst_time := 3, waiting_time := 0, turnaround_time := 3,
       arrival_time := 0, completion_time := 3 } : Process).turnaround_time =
        ({ pid := 4, burst_time := 3, waiting_time := 0, turnaround_time := 3,
           arrival_time := 0, completion_time := 3 } : Process).completion_time :=
  calculate_metrics_invariants jobs4 (by decide) (by decide) _ (by decide)

/-- Claim C5: the sort inside calculate_metrics is stable: for every input
list and every burst value b, the jobs with burst b appear in the output in
the same relative order (witnessed by their pids) as in the input. -/
theorem calculate_metrics_stable (ps : List Process) (b : Int) :
    ((calculate_metrics ps).filter (fun p => decide (p.burst_time = b))).map Process.pid
      = (ps.filter (fun p => decide (p.burst_time = b))).map Process.pid := by
  unfold calculate_metrics
  rw [assignMetrics_filter_map_pid, filter_insertionSort_burst]

/-- Claim C6: for every non-empty job list processed by calculate_metrics,
the sum of waiting times plus the sum of bursts equals the sum of turnaround
times. -/
theorem calculate_metrics_sum (ps : List Process) (_h : ps ≠ []) :
    ((calculate_metrics ps).map Process.waiting_time).sum
        + ((calculate_metrics ps).map Process.burst_time).sum
      = ((calculate_metrics ps).map Process.turnaround_time).sum :=
  sum_turnaround_of_invariant _ (fun p hp => (assignMetrics_mem_invariant 0 _ p hp).1)

/-- Claim C6 witness: the sum identity at the spec's four-job example. -/
theorem calculate_metrics_sum_witness :
    ((calculate_metrics jobs4).map Process.waiting_time).sum
        + ((calculate_metrics jobs4).map Process.burst_time).sum
      = ((calculate_metrics jobs4).map Process.turnaround_time).sum :=
  calculate_metrics_sum jobs4 (by decide)

/-- Claim C7: on every non-empty input the first job returned by
calculate_metrics has waiting time 0 and minimal burst among the output; and
the spec's single-job example with burst 5 yields waiting 0 and turnaround 5. -/
theorem calculate_metrics_first_waiting_zero :
    (∀ ps : List Process, ps ≠ [] →
      ∃ p l, calculate_metrics ps = p :: l ∧ p.waiting_time = 0 ∧
        ∀ q ∈ l, p.burst_time ≤ q.burst_time) ∧
    calculate_metrics [job5] =
      [{ pid := 1, burst_time := 5, waiting_time := 0, turnaround_time := 5,
         arrival_time := 0, completion_time := 5 }] :=
  ⟨calculate_metrics_head_aux, by decide⟩

/-- Claim C7 witness: the general statement applied to the single-job list. -/
theorem calculate_metrics_first_waiting_zero_witness :
    ∃ p l, calculate_metrics [job5] = p :: l ∧ p.waiting_time = 0 ∧
      ∀ q ∈ l, p.burst_time ≤ q.burst_time :=
  calculate_metrics_first_waiting_zero.1 [job5] (by decide)

/-- Claim C8: calculate_metrics is idempotent: applying it to its own output
returns the same list, with the same order and identical waiting, turnaround
and completion values. -/
theorem calculate_metrics_idempotent (ps : List Process) :
    calculate_metrics (calculate_metrics ps) = calculate_metrics ps := by
  have hs : List.Sorted burstLE (calculate_metrics ps) := calculate_metrics_sortedBurst ps
  show assignMetrics 0 (List.insertionSort burstLE (calculate_metrics ps)) = calculate_metrics ps
  rw [hs.insertionSort_eq]
  exact assignMetrics_idem 0 (List.insertionSort burstLE ps)

/-- Claim C9: in the simulation model of run_threaded_simulation, where one
worker per job is launched and each atomically appends its job once under the
lock, every complete run (all workers finished, i.e. join-all has returned)
leaves completed_processes a permutation of the input jobs, hence with exactly
N entries and no job lost or duplicated, for every interleaving of the
workers (i.e. regardless of sleep timing). -/
theorem run_threaded_simulation_complete (ps : List Process) (s : SimState)
    (hreach : SimReach ps s) (hdone : s.pending = []) :
    s.completed_processes.Perm ps ∧ s.completed_processes.length = ps.length := by
  have h := simReach_perm_aux ps s hreach
  rw [hdone] at h
  simp only [List.nil_append] at h
  exact ⟨h, h.length_eq⟩

/-- Claim C9 witness: a concrete two-worker run in which procA finishes first
and procB second, reaching the final state with both jobs completed. -/
theorem run_threaded_simulation_complete_witness :
    (SimState.mk [] [procA, procB]).completed_processes.Perm [procA, procB] ∧
      (SimState.mk [] [procA, procB]).completed_processes.length
        = ([procA, procB] : List Process).length :=
  run_threaded_simulation_complete [procA, procB] ⟨[], [procA, procB]⟩
    (Relation.ReflTransGen.tail
      (Relation.ReflTransGen.tail Relation.ReflTransGen.refl
        (SimStep.finish procA [] [procB] []))
      (SimStep.finish procB [] [] [procA]))
    rfl

/-- Claim C10: calculate_metrics writes only the derived fields: the multiset
of (pid, burst_time, arrival_time) triples of the output is exactly that of
the input, so each job keeps its pid, burst and arrival time. -/
theorem calculate_metrics_frame (ps : List Process) :
    ((calculate_metrics ps).map (fun p => (p.pid, p.burst_time, p.arrival_time))).Perm
      (ps.map (fun p => (p.pid, p.burst_time, p.arrival_time))) := by
  unfold calculate_metrics
  rw [assignMetrics_map_frame]
  exact (List.perm_insertionSort burstLE ps).map _

end SJF
